import Mathlib

/-!
Verification development for the museum-collection-explorer frontend.

The JavaScript sources are shallowly embedded: JavaScript numbers are
modelled as rationals (`ℚ`), JavaScript strings as Lean `String`s /
`List Char`, fallible network calls as `Except`/`Option` values, and the
event-driven pieces (the debounced fetch controller, the popup re-open
effect, the chat send handler) as explicit state-passing functions over
the component state they read and write.
-/

namespace MuseumExplorer

open scoped List

/-- Left-pad the decimal digits of `n` with zeros to width 6; used to
render the fractional part produced by `toFixed(6)`. -/
def padSixDigits (n : Nat) : String :=
  let s := toString n
  String.mk (List.replicate (6 - s.length) '0') ++ s

/-- JavaScript's `x.toFixed(6)`: round `x` to six decimal places
(nearest, ties towards +∞, as the ECMAScript spec's "pick the larger n")
and print with exactly six fractional digits.  A negative number that
rounds to zero keeps its minus sign, as in JavaScript. -/
def toFixed6 (q : ℚ) : String :=
  let n : ℤ := round (q * 1000000)
  (if q < 0 then "-" else "") ++ toString (n.natAbs / 1000000) ++ "." ++ padSixDigits (n.natAbs % 1000000)

/-- An occurrence record as consumed by the map component: an identifier
and a coordinate pair (`record.id`, `record.latitude`, `record.longitude`).
The remaining display-only fields play no role in the claims. -/
structure Occurrence where
  id : String
  latitude : ℚ
  longitude : ℚ
deriving DecidableEq, Repr

/-- The grouping key built in `MapView.groupedOccurrences`:
`` `${record.latitude.toFixed(6)},${record.longitude.toFixed(6)}` ``. -/
def occKey (r : Occurrence) : String :=
  toFixed6 r.latitude ++ "," ++ toFixed6 r.longitude

/-- A marker group produced by `MapView.groupedOccurrences`: the raw
coordinates of the first record seen at the key, the list of records
pushed at that key, and the key itself. -/
structure MarkerGroup where
  latitude : ℚ
  longitude : ℚ
  records : List Occurrence
  key : String
deriving DecidableEq, Repr

/-- One step of the grouping loop body: find the group with this record's
key and push the record, or create the group at the end (JavaScript
object string keys preserve insertion order, and these keys are never
array indices since they always contain `.` and `,`). -/
def insertOcc (gs : List MarkerGroup) (r : Occurrence) : List MarkerGroup :=
  match gs with
  | [] => [⟨r.latitude, r.longitude, [r], occKey r⟩]
  | g :: rest =>
    if g.key = occKey r then { g with records := g.records ++ [r] } :: rest
    else g :: insertOcc rest r

/-- `MapView.groupedOccurrences`: group the occurrence array by the
6-decimal coordinate key, returning `Object.values(groups)` in insertion
order. -/
def groupedOccurrences (occurrences : List Occurrence) : List MarkerGroup :=
  occurrences.foldl insertOcc []

/-- Concatenate each group's record list (the "flatten" direction of the
idempotence property). -/
def flattenGroups (gs : List MarkerGroup) : List Occurrence :=
  (gs.map MarkerGroup.records).flatten

/-! ### Debounced fetch controller (`App.handleBoundsChange`) -/

/-- A viewport rectangle as computed by the bounds tracker. -/
structure Bounds where
  north : ℚ
  south : ℚ
  east : ℚ
  west : ℚ
deriving DecidableEq, Repr

/-- One call to `App.handleBoundsChange`: the wall-clock time of the call
(milliseconds) and the arguments it closes over for the timer callback. -/
structure BoundsEvent where
  time : Nat
  bounds : Bounds
  showOnlyWithImages : Bool
deriving DecidableEq, Repr

/-- The pending `setTimeout` handle stored in `debounceTimer`: its firing
deadline and the `(bounds, showOnlyWithImages)` pair its callback would
pass to `loadViewportData`. -/
abbrev PendingTimer := Option (Nat × Bounds × Bool)

/-- Run the debounce protocol of `App.handleBoundsChange` over a
time-ordered list of calls, returning the fetches issued in order.  Each
call first lets a pending timer whose 500 ms deadline has already been
reached fire, then replaces the timer (`clearTimeout` + `setTimeout`)
with a fresh one due 500 ms later carrying this call's arguments; after
the last call the surviving timer fires. -/
def runDebounce (pending : PendingTimer) : List BoundsEvent → List (Bounds × Bool)
  | [] =>
    match pending with
    | none => []
    | some (_, b, f) => [(b, f)]
  | e :: rest =>
    (match pending with
     | some (d, b, f) => if d ≤ e.time then [(b, f)] else []
     | none => []) ++ runDebounce (some (e.time + 500, e.bounds, e.showOnlyWithImages)) rest

/-- The fetches issued by a sequence of `handleBoundsChange` calls
starting from an idle controller (no pending timer). -/
def debounceFetches (events : List BoundsEvent) : List (Bounds × Bool) :=
  runDebounce none events

/-! ### Popup lifecycle (`MapView` re-open effect) -/

/-- The contents of `openPopupInfo.current`: the popup's coordinate as the
two `toFixed(6)` strings captured in `handlePopupOpen`, and the ids of
the records in the group at open time. -/
structure PopupInfo where
  lat : String
  lng : String
  recordIds : List String
deriving DecidableEq, Repr

/-- Whether the re-open effect programmatically reopens the popup. -/
inductive ReopenOutcome where
  | reopened
  | notReopened
deriving DecidableEq, Repr

/-- The `MapView` effect that runs after `groupedOccurrences` changes
while `openPopupInfo.current` is set: rebuild the stored key, look for a
group at that key in the new grouping, and reopen the popup only when at
least one stored record id survives in that group; otherwise clear the
stored popup info.  Returns the outcome together with the new value of
`openPopupInfo.current`.  (When the group exists its marker has been
rendered, so `markerRefs.current[key]` is present.) -/
def reopenAfterReload (info : PopupInfo) (groups : List MarkerGroup) :
    ReopenOutcome × Option PopupInfo :=
  let key := info.lat ++ "," ++ info.lng
  match groups.find? (fun g => g.key = key) with
  | some g =>
    if g.records.any (fun r => info.recordIds.contains r.id) then
      (ReopenOutcome.reopened, some info)
    else
      (ReopenOutcome.notReopened, none)
  | none => (ReopenOutcome.notReopened, none)

/-! ### Chat service layer (`services/api.js`) -/

/-- JavaScript whitespace as used by `String.prototype.trim` and the
regex class `\s` (the ASCII part plus no-break space; the claims only
exercise the ASCII characters). -/
def isJsSpace (c : Char) : Bool :=
  c = ' ' || c = '\t' || c = '\n' || c = '\r' ||
  c = Char.ofNat 11 || c = Char.ofNat 12 || c = Char.ofNat 160

/-- `message.trim() === ''`: every character is whitespace. -/
def jsTrimEmpty (s : String) : Bool :=
  s.data.all isJsSpace

/-- JavaScript truthiness of a possibly-absent string: `null`/`undefined`
and the empty string are falsy. -/
def jsTruthyStr : Option String → Bool
  | none => false
  | some s => s ≠ ""

/-- `String.prototype.split(',')` on the character list, accumulating the
current piece in reverse. -/
def splitCommaAux : List Char → List Char → List (List Char)
  | [], acc => [acc.reverse]
  | c :: cs, acc =>
    if c = ',' then acc.reverse :: splitCommaAux cs [] else splitCommaAux cs (c :: acc)

/-- `imageData.split(',')` as in JavaScript: splitting at every comma,
with empty pieces kept. -/
def jsSplitComma (s : String) : List String :=
  (splitCommaAux s.data []).map List.asString

/-- The data-URL stripping in `sendChatMessage`:
`imageData.includes(',') ? imageData.split(',')[1] : imageData`. -/
def stripDataUrl (s : String) : String :=
  if s.data.contains ',' then (jsSplitComma s).getD 1 "" else s

/-- The JSON body posted to `/chat` by `sendChatMessage`. -/
structure ChatPayload where
  message : String
  session_id : String
  image : Option String
deriving DecidableEq, Repr

/-- `api.sendChatMessage`'s payload construction: the message (JavaScript
`message || ''` is the identity on strings), `context.session_id ||
'default'`, and — only when `imageData` is truthy — the image with any
data-URL prefix removed. -/
def sendChatMessagePayload (message : String) (sessionId : Option String)
    (imageData : Option String) : ChatPayload :=
  { message := message
    session_id :=
      match sessionId with
      | some s => if s = "" then "default" else s
      | none => "default"
    image :=
      match imageData with
      | some s => if s = "" then none else some (stripDataUrl s)
      | none => none }

/-! ### Chat component state (`Chatbot.js`) -/

/-- The role of a transcript entry. -/
inductive MsgRole where
  | user
  | assistant
deriving DecidableEq, Repr

/-- One transcript entry: role, text, and (for user messages) the
preview image attached at send time. -/
structure ChatMessage where
  role : MsgRole
  text : String
  image : Option String
deriving DecidableEq, Repr

/-- The chat component state touched by `handleSendMessage`. -/
structure ChatState where
  messages : List ChatMessage
  inputMessage : String
  suggestions : List String
  selectedImage : Option String
  imagePreview : Option String
  isLoading : Bool
deriving DecidableEq, Repr

/-- The `/chat` endpoint's reply shape. -/
structure ChatResponse where
  success : Bool
  response : String
  suggestions : Option (List String)
deriving DecidableEq, Repr

/-- The generic fallback assistant text appended when a chat send
fails. -/
def fallbackText : String :=
  "I apologize, but I encountered an error. Please try again."

/-- The three default suggestions hard-coded in `loadSuggestions`. -/
def defaultSuggestions : List String :=
  ["Upload an animal photo to identify",
   "Tell me about Australian wildlife",
   "What museum specimens do you have?"]

/-- `Chatbot.loadSuggestions`: on a successful fetch take
`(data.suggestions || defaults).slice(0, 3)` (a present-but-empty array
is truthy in JavaScript and is kept); on failure fall back to the three
defaults. -/
def loadSuggestionsResult (result : Except Unit (Option (List String))) : List String :=
  match result with
  | Except.ok data => (data.getD defaultSuggestions).take 3
  | Except.error _ => defaultSuggestions

/-- `Chatbot.handleSendMessage`, with the awaited network call passed in
as an `Except` value.  Returns the final component state together with
the payload sent to `/chat` (`none` when the empty-input guard returned
early and no request was issued).  Errors — both a rejected request and
a reply with `success: false` (re-thrown in the source) — are caught
inside the handler and converted to the fallback transcript entry; they
are never propagated to the caller. -/
def handleSendMessage (st : ChatState) (message : String) (sessionId : String)
    (net : Except Unit ChatResponse) : ChatState × Option ChatPayload :=
  if jsTrimEmpty message && !jsTruthyStr st.selectedImage then (st, none)
  else
    let messageText :=
      if message ≠ "" then message
      else if jsTruthyStr st.selectedImage then "Please analyse this image" else ""
    let userMessage : ChatMessage := ⟨MsgRole.user, messageText, st.imagePreview⟩
    let imageToSend := st.selectedImage
    let st1 : ChatState :=
      { st with
        messages := st.messages ++ [userMessage]
        inputMessage := ""
        selectedImage := none
        imagePreview := none
        isLoading := true }
    let payload := sendChatMessagePayload message (some sessionId) imageToSend
    match net with
    | Except.ok resp =>
      if resp.success then
        let st2 := { st1 with
          messages := st1.messages ++ [ChatMessage.mk MsgRole.assistant resp.response none] }
        let st3 :=
          match resp.suggestions with
          | some sugg => { st2 with suggestions := sugg.take 3 }
          | none => st2
        ({ st3 with isLoading := false }, some payload)
      else
        ({ st1 with
           messages := st1.messages ++ [ChatMessage.mk MsgRole.assistant fallbackText none]
           isLoading := false }, some payload)
    | Except.error _ =>
      ({ st1 with
         messages := st1.messages ++ [ChatMessage.mk MsgRole.assistant fallbackText none]
         isLoading := false }, some payload)

/-! ### Viewport data loading (`App.loadViewportData`) -/

/-- The facets payload is passed through untouched by `App.js`; its
entries are modelled opaquely. -/
abbrev Facets := List (String × Nat)

/-- The `/occurrences` response body, each field possibly absent
(`data.occurrences || []` etc. in the source). -/
structure ViewportData where
  occurrences : Option (List Occurrence)
  facets : Option Facets
  totalRecords : Option Nat
deriving DecidableEq, Repr

/-- The `App` state touched by `loadViewportData`. -/
structure AppViewportState where
  occurrences : List Occurrence
  facets : Facets
  totalInViewport : Nat
  loading : Bool
  initialLoading : Bool
deriving DecidableEq, Repr

/-- `App.loadViewportData`, with the awaited `fetchOccurrences` call
passed in as an `Except` value.  Returns the final state and the number
of fetch requests issued by this invocation (always exactly one: the
error path only clears the loading flags and never retries). -/
def loadViewportData (st : AppViewportState) (result : Except Unit ViewportData) :
    AppViewportState × Nat :=
  match result with
  | Except.ok data =>
    ({ occurrences := data.occurrences.getD []
       facets := data.facets.getD []
       totalInViewport := data.totalRecords.getD 0
       loading := false
       initialLoading := false }, 1)
  | Except.error _ =>
    ({ st with loading := false, initialLoading := false }, 1)

/-! ### URL segmentation (`Chatbot.parseUrlsWithQuotedParams`) -/

/-- Length of the maximal non-whitespace run at the head of the list:
the greedy `[^\s]+` of the URL regex. -/
def nonSpaceRun : List Char → Nat
  | [] => 0
  | c :: cs => if isJsSpace c then 0 else nonSpaceRun cs + 1

/-- Match the regex `https?:\/\/[^\s]+` anchored at position `i`:
the scheme (the optional `s` is greedy, and the two scheme spellings
cannot both match at one position) followed by at least one
non-whitespace character; returns the match length. -/
def urlMatchLen (text : List Char) (i : Nat) : Option Nat :=
  let rest := text.drop i
  if List.isPrefixOf "https://".data rest then
    let run := nonSpaceRun (rest.drop 8)
    if run = 0 then none else some (8 + run)
  else if List.isPrefixOf "http://".data rest then
    let run := nonSpaceRun (rest.drop 7)
    if run = 0 then none else some (7 + run)
  else none

/-- `text.matchAll(urlRegex)`: scan left to right from position `i`,
emitting each leftmost match as `(start, length)` and resuming after its
end.  `fuel` bounds the recursion; every step advances the position. -/
def findUrlMatchesAux (text : List Char) : Nat → Nat → List (Nat × Nat)
  | 0, _ => []
  | fuel + 1, i =>
    if text.length ≤ i then []
    else
      match urlMatchLen text i with
      | some len => (i, len) :: findUrlMatchesAux text fuel (i + len)
      | none => findUrlMatchesAux text fuel (i + 1)

/-- All matches of the URL regex in `text`. -/
def findUrlMatches (text : List Char) : List (Nat × Nat) :=
  findUrlMatchesAux text text.length 0

/-- The character-by-character `while` loop of
`parseUrlsWithQuotedParams`: starting at `i` with the
`inQuotedSection`/`quoteCount` state, return the index where the URL
ends.  A `%22` sequence advances three characters and toggles the quoted
state via the count's parity; inside a quoted section every character
(spaces included) is consumed; outside, whitespace and the closing
characters `) " ' < >` end the URL. -/
def scanUrlEnd (text : List Char) : Nat → Nat → Bool → Nat → Nat
  | 0, i, _, _ => i
  | fuel + 1, i, inQuoted, quoteCount =>
    if i < text.length then
      let next2 : List Char := if i + 2 < text.length then (text.drop i).take 3 else []
      if next2 = ['%', '2', '2'] then
        let qc := quoteCount + 1
        scanUrlEnd text fuel (i + 3) (qc % 2 == 1) qc
      else if inQuoted then
        scanUrlEnd text fuel (i + 1) inQuoted quoteCount
      else
        let c := text.getD i ' '
        if c = ' ' || c = '\n' || c = '\t' || c = '\r' then i
        else if c = ')' || c = Char.ofNat 34 || c = Char.ofNat 39 || c = '<' || c = '>' then i
        else scanUrlEnd text fuel (i + 1) inQuoted quoteCount
    else i

/-- The character class of the trailing-punctuation cleanup regex
`/[.,;!?]+$/`. -/
def isTrailingPunct (c : Char) : Bool :=
  c = '.' || c = ',' || c = ';' || c = '!' || c = '?'

/-- The cleanup step: when the URL ends in sentence punctuation and
contains no `?`, strip the whole trailing punctuation run. -/
def cleanUrlChars (url : List Char) : List Char :=
  if (match url.getLast? with
      | some c => isTrailingPunct c
      | none => false) && !url.contains '?' then
    (url.reverse.dropWhile isTrailingPunct).reverse
  else url

/-- An output segment of the URL parser. -/
inductive Segment where
  | text (content : String)
  | url (content : String)
deriving DecidableEq, Repr

/-- `text.substring(a, b)` for `a ≤ b`. -/
def sliceChars (text : List Char) (a b : Nat) : List Char :=
  (text.drop a).take (b - a)

/-- `Chatbot.parseUrlsWithQuotedParams`: find all regex matches up
front, then for each match emit the plain text since the previous
position, rescan the URL from the match start with the quoted-section
scanner, clean it, and emit it; finally emit any remaining text.  The
position after a URL advances by the scanned (uncleaned) URL length, as
in the source. -/
def parseUrlsWithQuotedParams (s : String) : List Segment :=
  let text := s.data
  let ms := findUrlMatches text
  if ms.isEmpty then [Segment.text s]
  else
    let step : (List Segment × Nat) → (Nat × Nat) → (List Segment × Nat) :=
      fun acc m =>
        let result := acc.1
        let currentPos := acc.2
        let startIndex := m.1
        let pre :=
          if currentPos < startIndex then
            [Segment.text (sliceChars text currentPos startIndex).asString]
          else []
        let endIdx := scanUrlEnd text (text.length + 1) startIndex false 0
        let url := sliceChars text startIndex endIdx
        (result ++ pre ++ [Segment.url (cleanUrlChars url).asString], startIndex + url.length)
    let fin := ms.foldl step ([], 0)
    if fin.2 < text.length then
      fin.1 ++ [Segment.text (sliceChars text fin.2 text.length).asString]
    else fin.1

/-! ## Theorems -/

/-! ### C1: the debounce controller coalesces rapid bounds changes -/

/-- The inter-arrival discipline of a burst: calls come in time order and
each gap is shorter than the 500 ms debounce delay. -/
def WithinDebounceWindow (a b : BoundsEvent) : Prop :=
  a.time ≤ b.time ∧ b.time < a.time + 500

instance : DecidableRel WithinDebounceWindow := fun a b =>
  inferInstanceAs (Decidable (a.time ≤ b.time ∧ b.time < a.time + 500))

/-- While a fresh timer is pending (its deadline strictly after the next
call) and every remaining gap is inside the debounce window, the run
ends with exactly the last call's fetch. -/
theorem runDebounce_fresh (events : List BoundsEvent) :
    ∀ (d : Nat) (b : Bounds) (f : Bool) (h : events ≠ []),
      events.Chain' WithinDebounceWindow →
      (events.head h).time < d →
      runDebounce (some (d, b, f)) events =
        [((events.getLast h).bounds, (events.getLast h).showOnlyWithImages)] := by
  induction events with
  | nil => intro d b f h; exact absurd rfl h
  | cons e rest ih =>
    intro d b f h hchain hlt
    simp only [List.head_cons] at hlt
    cases rest with
    | nil =>
      simp [runDebounce, Nat.not_le.mpr hlt]
    | cons e2 rest2 =>
      rw [List.chain'_cons] at hchain
      rw [List.getLast_cons (by simp : (e2 :: rest2) ≠ [])]
      simp only [runDebounce, if_neg (Nat.not_le.mpr hlt), List.nil_append]
      exact ih _ _ _ (by simp) hchain.2 (by simpa using hchain.1.2)

/-- C1: for every nonempty sequence of bounds-change events whose
consecutive gaps are all shorter than the 500 ms debounce delay, exactly
one occurrence fetch is issued, after the last event, and it carries the
bounds and the `showOnlyWithImages` flag of the last event; none of the
earlier events produces a fetch. -/
theorem debounce_coalesces_to_last_fetch (events : List BoundsEvent) (h : events ≠ [])
    (hchain : events.Chain' WithinDebounceWindow) :
    debounceFetches events =
      [((events.getLast h).bounds, (events.getLast h).showOnlyWithImages)] := by
  cases events with
  | nil => exact absurd rfl h
  | cons e rest =>
    unfold debounceFetches
    cases rest with
    | nil => simp [runDebounce]
    | cons e2 rest2 =>
      rw [List.chain'_cons] at hchain
      rw [List.getLast_cons (by simp : (e2 :: rest2) ≠ [])]
      simp only [runDebounce, List.nil_append]
      exact runDebounce_fresh _ _ _ _ (by simp) hchain.2 (by simpa using hchain.1.2)

/-- Witness for C1 at a concrete two-event burst with a 100 ms gap. -/
theorem debounce_coalesces_witness :
    debounceFetches
      [⟨0, ⟨1, 2, 3, 4⟩, true⟩, ⟨100, ⟨5, 6, 7, 8⟩, false⟩] =
      [(⟨5, 6, 7, 8⟩, false)] := by
  have h := debounce_coalesces_to_last_fetch
    [⟨0, ⟨1, 2, 3, 4⟩, true⟩, ⟨100, ⟨5, 6, 7, 8⟩, false⟩] (by decide)
    (by norm_num [List.chain'_pair, WithinDebounceWindow])
  simpa using h

/-! ### C2: popup restoration after a data reload -/

/-- C2: after a reload with a popup stored at key `K = lat,lng` holding
record ids `S`: when the new grouping has a group at `K` sharing at
least one id with `S` the popup is reopened (and the stored state kept);
when the group at `K` has no id in `S`, or no group sits at `K`, the
popup is not reopened and the stored popup state is discarded. -/
theorem popup_reopen_after_reload (info : PopupInfo) (groups : List MarkerGroup) :
    (∀ g, groups.find? (fun g => g.key = info.lat ++ "," ++ info.lng) = some g →
      ((∃ r ∈ g.records, r.id ∈ info.recordIds) →
          reopenAfterReload info groups = (ReopenOutcome.reopened, some info)) ∧
      ((∀ r ∈ g.records, r.id ∉ info.recordIds) →
          reopenAfterReload info groups = (ReopenOutcome.notReopened, none))) ∧
    (groups.find? (fun g => g.key = info.lat ++ "," ++ info.lng) = none →
      reopenAfterReload info groups = (ReopenOutcome.notReopened, none)) := by
  simp only [reopenAfterReload]
  constructor
  · intro g hg
    rw [hg]
    constructor
    · rintro ⟨r, hr, hrid⟩
      simp
      exact ⟨r, hr, hrid⟩
    · intro hall
      simp
      exact hall
  · intro hnone
    rw [hnone]

/-- Witness for C2: a stored popup with ids `a, b`; the reload keeps a
record `b` at the stored key, so the popup is reopened and the state
kept. -/
theorem popup_reopen_witness :
    reopenAfterReload ⟨"1.000000", "2.000000", ["a", "b"]⟩
        [⟨1, 2, [⟨"b", 1, 2⟩, ⟨"d", 1, 2⟩], "1.000000,2.000000"⟩] =
      (ReopenOutcome.reopened, some ⟨"1.000000", "2.000000", ["a", "b"]⟩) := by
  have h := (popup_reopen_after_reload ⟨"1.000000", "2.000000", ["a", "b"]⟩
      [⟨1, 2, [⟨"b", 1, 2⟩, ⟨"d", 1, 2⟩], "1.000000,2.000000"⟩]).1
      ⟨1, 2, [⟨"b", 1, 2⟩, ⟨"d", 1, 2⟩], "1.000000,2.000000"⟩ (by decide)
  exact h.1 ⟨⟨"b", 1, 2⟩, by decide, by decide⟩

/-! ### Grouping invariants shared by C3 and C10 -/

/-- A single well-formed marker group: every record carries the group's
key, and the group's coordinates and key come from its first record. -/
def GroupWF (g : MarkerGroup) : Prop :=
  (∀ r ∈ g.records, occKey r = g.key) ∧
  ∃ r0 rs, g.records = r0 :: rs ∧ g.latitude = r0.latitude ∧
    g.longitude = r0.longitude ∧ g.key = occKey r0

/-- A well-formed grouping: all groups well formed, with pairwise
distinct keys. -/
def GroupsWF (gs : List MarkerGroup) : Prop :=
  (∀ g ∈ gs, GroupWF g) ∧ (gs.map MarkerGroup.key).Nodup

theorem keys_insertOcc (gs : List MarkerGroup) (r : Occurrence) :
    (insertOcc gs r).map MarkerGroup.key =
      if occKey r ∈ gs.map MarkerGroup.key then gs.map MarkerGroup.key
      else gs.map MarkerGroup.key ++ [occKey r] := by
  induction gs with
  | nil => simp [insertOcc]
  | cons g rest ih =>
    simp only [insertOcc]
    by_cases h : g.key = occKey r
    · rw [if_pos h]
      simp [h]
    · rw [if_neg h, List.map_cons, List.map_cons, ih]
      by_cases hmem : occKey r ∈ rest.map MarkerGroup.key
      · rw [if_pos hmem, if_pos (by simp [hmem])]
      · rw [if_neg hmem, if_neg ?_, List.cons_append]
        intro hc
        rcases List.mem_cons.mp hc with hc | hc
        · exact h hc.symm
        · exact hmem hc

theorem groupsWF_insertOcc (gs : List MarkerGroup) (r : Occurrence) :
    GroupsWF gs → GroupsWF (insertOcc gs r) := by
  induction gs with
  | nil =>
    intro _
    refine ⟨?_, by simp [insertOcc]⟩
    intro g hg
    simp [insertOcc] at hg
    subst hg
    exact ⟨by intro r' hr'; simp at hr'; subst hr'; rfl,
      r, [], rfl, rfl, rfl, rfl⟩
  | cons g rest ih =>
    rintro ⟨hwf, hnd⟩
    have hgwf := hwf g (by simp)
    have hrestwf : GroupsWF rest :=
      ⟨fun g' hg' => hwf g' (by simp [hg']), (List.nodup_cons.mp (by simpa using hnd)).2⟩
    simp only [insertOcc]
    by_cases h : g.key = occKey r
    · rw [if_pos h]
      refine ⟨?_, by simpa using hnd⟩
      intro g' hg'
      rcases List.mem_cons.mp hg' with hg' | hg'
      · subst hg'
        obtain ⟨hall, r0, rs, hrec, hlat, hlng, hkey⟩ := hgwf
        refine ⟨?_, r0, rs ++ [r], by simp [hrec], hlat, hlng, hkey⟩
        intro r' hr'
        rcases List.mem_append.mp hr' with hr' | hr'
        · exact hall r' hr'
        · simp at hr'
          subst hr'
          exact h.symm
      · exact hwf g' (by simp [hg'])
    · rw [if_neg h]
      have hins := ih hrestwf
      refine ⟨?_, ?_⟩
      · intro g' hg'
        rcases List.mem_cons.mp hg' with hg' | hg'
        · subst hg'; exact hgwf
        · exact hins.1 g' hg'
      · rw [List.map_cons, List.nodup_cons]
        refine ⟨?_, hins.2⟩
        rw [keys_insertOcc]
        have hgnotin : g.key ∉ rest.map MarkerGroup.key :=
          (List.nodup_cons.mp (by simpa using hnd)).1
        by_cases hmem : occKey r ∈ rest.map MarkerGroup.key
        · rw [if_pos hmem]; exact hgnotin
        · rw [if_neg hmem]
          intro hc
          rcases List.mem_append.mp hc with hc | hc
          · exact hgnotin hc
          · simp at hc
            exact h hc

theorem foldl_insertOcc_wf (l : List Occurrence) :
    ∀ acc, GroupsWF acc → GroupsWF (l.foldl insertOcc acc) := by
  induction l with
  | nil => intro acc h; exact h
  | cons r l' ih =>
    intro acc h
    exact ih (insertOcc acc r) (groupsWF_insertOcc acc r h)

theorem groupedOccurrences_wf (l : List Occurrence) :
    GroupsWF (groupedOccurrences l) :=
  foldl_insertOcc_wf l [] ⟨by simp, by simp⟩

theorem insertOcc_mid (gs1 : List MarkerGroup) (g : MarkerGroup) (gs2 : List MarkerGroup)
    (r : Occurrence) (hk : occKey r = g.key) (hnot : g.key ∉ gs1.map MarkerGroup.key) :
    insertOcc (gs1 ++ g :: gs2) r = gs1 ++ { g with records := g.records ++ [r] } :: gs2 := by
  induction gs1 with
  | nil => simp [insertOcc, hk]
  | cons g1 gs1' ih =>
    have h1 : ¬ g1.key = occKey r := by
      rw [hk]
      intro hc
      exact hnot (by simp [hc.symm])
    simp only [List.cons_append, insertOcc, if_neg h1, List.append_eq]
    rw [ih (fun hc => hnot (by simp [hc]))]

theorem foldl_insertOcc_absorb (rs : List Occurrence) :
    ∀ (gs1 : List MarkerGroup) (g : MarkerGroup) (gs2 : List MarkerGroup),
      (∀ x ∈ rs, occKey x = g.key) → g.key ∉ gs1.map MarkerGroup.key →
      List.foldl insertOcc (gs1 ++ g :: gs2) rs =
        gs1 ++ { g with records := g.records ++ rs } :: gs2 := by
  induction rs with
  | nil =>
    intro gs1 g gs2 _ _
    cases g
    simp
  | cons x rs' ih =>
    intro gs1 g gs2 hall hnot
    simp only [List.foldl_cons]
    rw [insertOcc_mid gs1 g gs2 x (hall x (by simp)) hnot]
    rw [ih gs1 { g with records := g.records ++ [x] } gs2
      (fun y hy => hall y (by simp [hy])) hnot]
    simp

theorem insertOcc_new (gs : List MarkerGroup) (r : Occurrence)
    (h : occKey r ∉ gs.map MarkerGroup.key) :
    insertOcc gs r = gs ++ [⟨r.latitude, r.longitude, [r], occKey r⟩] := by
  induction gs with
  | nil => simp [insertOcc]
  | cons g rest ih =>
    have h1 : ¬ g.key = occKey r := fun hc => h (by simp [hc.symm])
    simp only [insertOcc, if_neg h1, List.cons_append]
    rw [ih (fun hc => h (by simp [hc]))]

theorem foldl_insertOcc_newBlock (r0 : Occurrence) (rs : List Occurrence)
    (gs : List MarkerGroup) (hall : ∀ x ∈ rs, occKey x = occKey r0)
    (hnot : occKey r0 ∉ gs.map MarkerGroup.key) :
    List.foldl insertOcc gs (r0 :: rs) =
      gs ++ [⟨r0.latitude, r0.longitude, r0 :: rs, occKey r0⟩] := by
  rw [List.foldl_cons, insertOcc_new gs r0 hnot]
  have habs := foldl_insertOcc_absorb rs gs ⟨r0.latitude, r0.longitude, [r0], occKey r0⟩ []
    (fun y hy => hall y hy) hnot
  rw [habs]
  rfl

theorem foldl_flatten_self (gs : List MarkerGroup) :
    ∀ acc, GroupsWF (acc ++ gs) → List.foldl insertOcc acc (flattenGroups gs) = acc ++ gs := by
  induction gs with
  | nil => intro acc _; simp [flattenGroups]
  | cons g gs' ih =>
    intro acc hwf
    have hg : GroupWF g := hwf.1 g (by simp)
    have hnot : g.key ∉ acc.map MarkerGroup.key := by
      have hnd := hwf.2
      rw [List.map_append, List.nodup_append] at hnd
      exact fun hc => hnd.2.2 hc (by simp)
    have hassoc : (acc ++ [g]) ++ gs' = acc ++ g :: gs' := by simp
    obtain ⟨hall, r0, rs, hrec, hlat, hlng, hkey⟩ := hg
    have hgeq : (⟨r0.latitude, r0.longitude, r0 :: rs, occKey r0⟩ : MarkerGroup) = g := by
      obtain ⟨glat, glng, grec, gkey⟩ := g
      simp only [MarkerGroup.mk.injEq]
      exact ⟨hlat.symm, hlng.symm, hrec.symm, hkey.symm⟩
    have hblock : List.foldl insertOcc acc g.records = acc ++ [g] := by
      rw [hrec]
      rw [foldl_insertOcc_newBlock r0 rs acc
        (fun x hx => hkey ▸ hall x (by rw [hrec]; exact List.mem_cons_of_mem _ hx))
        (hkey ▸ hnot)]
      rw [hgeq]
    simp only [flattenGroups, List.map_cons, List.flatten_cons]
    rw [List.foldl_append]
    rw [hblock]
    have hfl : List.foldl insertOcc (acc ++ [g]) (flattenGroups gs') = (acc ++ [g]) ++ gs' :=
      ih (acc ++ [g]) (by rwa [hassoc])
    rw [show (flattenGroups gs' : List Occurrence) =
      (gs'.map MarkerGroup.records).flatten from rfl] at hfl
    rw [hfl, hassoc]

/-! ### C3: grouping is idempotent -/

/-- C3: flattening the groups produced by `groupedOccurrences` and
grouping again reproduces exactly the same groups (same keys, same
record lists, in the same order). -/
theorem grouping_idempotent (occs : List Occurrence) :
    groupedOccurrences (flattenGroups (groupedOccurrences occs)) = groupedOccurrences occs := by
  have h := foldl_flatten_self (groupedOccurrences occs) []
    (by simpa using groupedOccurrences_wf occs)
  simpa [groupedOccurrences] using h

/-! ### C10: grouping partitions its input -/

theorem flatten_insertOcc_perm (gs : List MarkerGroup) (r : Occurrence) :
    (flattenGroups (insertOcc gs r)).Perm (flattenGroups gs ++ [r]) := by
  induction gs with
  | nil => simp [insertOcc, flattenGroups]
  | cons g rest ih =>
    by_cases h : g.key = occKey r
    · simp only [insertOcc, if_pos h, flattenGroups, List.map_cons, List.flatten_cons]
      calc (g.records ++ [r]) ++ (rest.map MarkerGroup.records).flatten
          = g.records ++ ([r] ++ (rest.map MarkerGroup.records).flatten) := by
            rw [List.append_assoc]
        _ ~ g.records ++ ((rest.map MarkerGroup.records).flatten ++ [r]) :=
            List.Perm.append_left _ (List.perm_append_comm)
        _ = (g.records ++ (rest.map MarkerGroup.records).flatten) ++ [r] := by
            rw [List.append_assoc]
    · simp only [insertOcc, if_neg h, flattenGroups, List.map_cons, List.flatten_cons]
      calc g.records ++ (((insertOcc rest r).map MarkerGroup.records).flatten)
          ~ g.records ++ ((rest.map MarkerGroup.records).flatten ++ [r]) :=
            List.Perm.append_left _ (by simpa [flattenGroups] using ih)
        _ = (g.records ++ (rest.map MarkerGroup.records).flatten) ++ [r] := by
            rw [List.append_assoc]

theorem flatten_foldl_perm (l : List Occurrence) :
    ∀ acc, (flattenGroups (l.foldl insertOcc acc)).Perm (flattenGroups acc ++ l) := by
  induction l with
  | nil => intro acc; simp
  | cons r l' ih =>
    intro acc
    calc flattenGroups (List.foldl insertOcc (insertOcc acc r) l')
        ~ flattenGroups (insertOcc acc r) ++ l' := ih (insertOcc acc r)
      _ ~ (flattenGroups acc ++ [r]) ++ l' :=
          List.Perm.append_right _ (flatten_insertOcc_perm acc r)
      _ = flattenGroups acc ++ (r :: l') := by simp

/-- C10: the grouper partitions its input — the concatenation of all
groups' record lists is a permutation of the input array, every group is
non-empty, distinct groups carry distinct coordinate keys, and each
input record lies in exactly one group. -/
theorem grouping_partitions (occs : List Occurrence) :
    (flattenGroups (groupedOccurrences occs)).Perm occs ∧
    (∀ g ∈ groupedOccurrences occs, g.records ≠ []) ∧
    ((groupedOccurrences occs).map MarkerGroup.key).Nodup ∧
    ∀ r ∈ occs, ∃! g, g ∈ groupedOccurrences occs ∧ r ∈ g.records := by
  have hwf := groupedOccurrences_wf occs
  have hperm : (flattenGroups (groupedOccurrences occs)).Perm occs := by
    simpa [flattenGroups] using flatten_foldl_perm occs []
  refine ⟨hperm, ?_, hwf.2, ?_⟩
  · intro g hg
    obtain ⟨_, r0, rs, hrec, _⟩ := hwf.1 g hg
    simp [hrec]
  · intro r hr
    have hmem : r ∈ flattenGroups (groupedOccurrences occs) := hperm.mem_iff.mpr hr
    rw [show flattenGroups (groupedOccurrences occs) =
      ((groupedOccurrences occs).map MarkerGroup.records).flatten from rfl] at hmem
    rw [List.mem_flatten] at hmem
    obtain ⟨l, hl, hrl⟩ := hmem
    rw [List.mem_map] at hl
    obtain ⟨g, hgmem, hgrec⟩ := hl
    subst hgrec
    refine ⟨g, ⟨hgmem, hrl⟩, ?_⟩
    rintro g' ⟨hg'mem, hrg'⟩
    have hk : g'.key = g.key := by
      rw [← (hwf.1 g hgmem).1 r hrl, ← (hwf.1 g' hg'mem).1 r hrg']
    exact List.inj_on_of_nodup_map hwf.2 hg'mem hgmem hk

/-! ### C4: URL segmentation keeps `%22`-quoted spaces inside the URL -/

/-- C4: on the spec's test input the parser returns the whole
quoted-space URL as a single link token with the surrounding text as
text segments; and in general, while the number of `%22` sequences seen
so far is odd (the quoted sub-state), a space character does not
terminate the URL scan — the scanner steps over it. -/
theorem url_segmentation_quoted_space :
    parseUrlsWithQuotedParams "See https://x.test/q?n=%22a b%22 now" =
      [Segment.text "See ", Segment.url "https://x.test/q?n=%22a b%22",
       Segment.text " now"] ∧
    ∀ (text : List Char) (fuel i qc : Nat),
      i < text.length → text.getD i ' ' = ' ' → qc % 2 = 1 →
      scanUrlEnd text (fuel + 1) i true qc = scanUrlEnd text fuel (i + 1) true qc := by
  constructor
  · rfl
  · intro text fuel i qc hi hc _
    have hdrop : text.drop i = ' ' :: text.drop (i + 1) := by
      rw [List.drop_eq_getElem_cons hi]
      congr 1
      rw [← hc, List.getD_eq_getElem?_getD, List.getElem?_eq_getElem hi]
      rfl
    have hnext2 : (if i + 2 < text.length then (text.drop i).take 3 else []) ≠
        ['%', '2', '2'] := by
      by_cases h2 : i + 2 < text.length
      · rw [if_pos h2, hdrop]
        simp
      · rw [if_neg h2]
        simp
    simp only [scanUrlEnd, if_pos hi]
    rw [if_neg hnext2]
    simp

/-- Witness for C4's quoted-space stepping property at a concrete
position: position 1 of `"a b"` holds a space and the quote count is
odd, so the scan continues at position 2. -/
theorem url_segmentation_quoted_space_witness :
    scanUrlEnd "a b".data 5 1 true 1 = scanUrlEnd "a b".data 4 2 true 1 :=
  url_segmentation_quoted_space.2 "a b".data 4 1 1 (by decide) (by decide) (by decide)

/-! ### C5: chat send failure appends exactly one fallback message -/

/-- C5: whenever the empty-input guard passes, a failed send (rejected
request or `success: false` reply) leaves the transcript as the old
messages plus the user message plus exactly one generic fallback
assistant message — nothing else is added or removed, and the error is
not propagated (the handler returns a state, not an exception); a
successful send appends the reply as an assistant message instead. -/
theorem chat_send_error_fallback (st : ChatState) (message sessionId : String)
    (net : Except Unit ChatResponse)
    (hguard : (jsTrimEmpty message && !jsTruthyStr st.selectedImage) = false) :
    ((net = Except.error () ∨ ∃ resp, net = Except.ok resp ∧ resp.success = false) →
      ∃ u, u.role = MsgRole.user ∧
        (handleSendMessage st message sessionId net).1.messages =
          st.messages ++ [u, ChatMessage.mk MsgRole.assistant fallbackText none]) ∧
    (∀ resp, net = Except.ok resp → resp.success = true →
      ∃ u, u.role = MsgRole.user ∧
        (handleSendMessage st message sessionId net).1.messages =
          st.messages ++ [u, ChatMessage.mk MsgRole.assistant resp.response none]) := by
  constructor
  · intro herr
    refine ⟨⟨MsgRole.user,
      if message ≠ "" then message
      else if jsTruthyStr st.selectedImage then "Please analyse this image" else "",
      st.imagePreview⟩, rfl, ?_⟩
    rcases herr with herr | ⟨resp, hnet, hfail⟩
    · subst herr
      simp [handleSendMessage, hguard]
    · subst hnet
      simp [handleSendMessage, hguard, hfail]
  · intro resp hnet hsucc
    subst hnet
    refine ⟨⟨MsgRole.user,
      if message ≠ "" then message
      else if jsTruthyStr st.selectedImage then "Please analyse this image" else "",
      st.imagePreview⟩, rfl, ?_⟩
    cases hsugg : resp.suggestions with
    | none => simp [handleSendMessage, hguard, hsucc, hsugg]
    | some sugg => simp [handleSendMessage, hguard, hsucc, hsugg]

/-- Witness for C5 at a concrete failed send: message `"hi"`, no image,
rejected request. -/
theorem chat_send_error_fallback_witness :
    ∃ u, u.role = MsgRole.user ∧
      (handleSendMessage ⟨[], "", [], none, none, false⟩ "hi" "sess"
          (Except.error ())).1.messages =
        [] ++ [u, ChatMessage.mk MsgRole.assistant fallbackText none] :=
  (chat_send_error_fallback ⟨[], "", [], none, none, false⟩ "hi" "sess"
    (Except.error ()) (by decide)).1 (Or.inl rfl)

/-! ### C6: a failed viewport fetch keeps the displayed data -/

/-- C6: when the occurrence fetch fails, `loadViewportData` leaves the
occurrence set, the facets and the total-in-viewport count untouched,
changes only the two loading flags, and issues exactly one request (no
retry). -/
theorem viewport_fetch_failure_preserves_data (st : AppViewportState) :
    loadViewportData st (Except.error ()) =
      ({ st with loading := false, initialLoading := false }, 1) := rfl

/-! ### C7: data-URL stripping in the chat payload -/

/-- Counterexample to C7 as stated: for the image string
`"a" ++ "," ++ "b,c"` the claim predicts the image field `"b,c"`, but
`split(',')[1]` keeps only the piece between the first and second
commas, so the code sends `"b"`. -/
theorem chat_image_strip_counterexample :
    (sendChatMessagePayload "hi" (some "sess") (some ("a" ++ "," ++ "b,c"))).image =
      some "b" ∧ (some "b" : Option String) ≠ some "b,c" := by
  constructor
  · rfl
  · decide

theorem splitCommaAux_no_comma (l : List Char) :
    ∀ acc, l.contains ',' = false → splitCommaAux l acc = [acc.reverse ++ l] := by
  induction l with
  | nil => intro acc _; simp [splitCommaAux]
  | cons c cs ih =>
    intro acc h
    have hc : ¬ c = ',' ∧ cs.contains ',' = false := by
      constructor
      · intro hcc
        subst hcc
        simp at h
      · cases hcon : cs.contains ',' with
        | false => rfl
        | true => rw [List.contains_cons, hcon, Bool.or_true] at h; exact absurd h (by simp)
    rw [splitCommaAux, if_neg hc.1, ih _ hc.2]
    simp

theorem splitCommaAux_break (p : List Char) :
    ∀ (rest : List Char) (acc : List Char), p.contains ',' = false →
      splitCommaAux (p ++ ',' :: rest) acc = (acc.reverse ++ p) :: splitCommaAux rest [] := by
  induction p with
  | nil => intro rest acc _; simp [splitCommaAux]
  | cons c cs ih =>
    intro rest acc h
    have hc : ¬ c = ',' ∧ cs.contains ',' = false := by
      constructor
      · intro hcc
        subst hcc
        simp at h
      · cases hcon : cs.contains ',' with
        | false => rfl
        | true => rw [List.contains_cons, hcon, Bool.or_true] at h; exact absurd h (by simp)
    rw [List.cons_append, splitCommaAux, if_neg hc.1, ih rest _ hc.2]
    simp

/-- C7 amended: the image field carries `split(',')[1]` — for
`prefix + "," + data` this equals `data` only when the two parts are
comma-free; a nonempty comma-free image string is carried unchanged; and
with no image the body has no image field. -/
theorem chat_image_strip_amended (message : String) (sessionId : Option String) :
    (∀ pre dat : String, pre.data.contains ',' = false → dat.data.contains ',' = false →
      (sendChatMessagePayload message sessionId (some (pre ++ "," ++ dat))).image =
        some dat) ∧
    (∀ s : String, s.data.contains ',' = false → s ≠ "" →
      (sendChatMessagePayload message sessionId (some s)).image = some s) ∧
    (sendChatMessagePayload message sessionId none).image = none := by
  refine ⟨?_, ?_, rfl⟩
  · intro pre dat hpre hdat
    have hdata : (pre ++ "," ++ dat).data = pre.data ++ ',' :: dat.data := by
      simp [String.data_append]
    have hne : (pre ++ "," ++ dat) ≠ "" := by
      intro hcon
      have : (pre ++ "," ++ dat).data = [] := by rw [hcon]
      rw [hdata] at this
      simp at this
    have hcontains : (pre ++ "," ++ dat).data.contains ',' = true := by
      rw [hdata]
      simp
    simp only [sendChatMessagePayload, stripDataUrl, jsSplitComma, if_neg hne, hdata]
    rw [if_pos (show (pre.data ++ ',' :: dat.data).contains ',' = true by simp)]
    rw [splitCommaAux_break pre.data (dat.data) [] hpre]
    rw [splitCommaAux_no_comma dat.data [] hdat]
    rfl
  · intro s hs hne
    simp only [sendChatMessagePayload, stripDataUrl, if_neg hne, hs]
    simp

/-- Witness for C7's amended claim: a data-URL prefixed base64 payload
is stripped to the part after the comma. -/
theorem chat_image_strip_amended_witness :
    (sendChatMessagePayload "m" (some "x")
        (some ("data:image/png;base64" ++ "," ++ "AAA"))).image = some "AAA" :=
  (chat_image_strip_amended "m" (some "x")).1 "data:image/png;base64" "AAA"
    (by decide) (by decide)

/-! ### C8: empty chat send is a no-op -/

/-- C8: with whitespace-only text and no selected image the send handler
returns the state unchanged and issues no request. -/
theorem chat_send_empty_noop (st : ChatState) (message sessionId : String)
    (net : Except Unit ChatResponse)
    (htrim : jsTrimEmpty message = true) (himg : jsTruthyStr st.selectedImage = false) :
    handleSendMessage st message sessionId net = (st, none) := by
  simp [handleSendMessage, htrim, himg]

/-- Witness for C8: a whitespace-only message with no image. -/
theorem chat_send_empty_noop_witness :
    handleSendMessage ⟨[], "", [], none, none, false⟩ "  " "sess"
        (Except.ok ⟨true, "r", none⟩) =
      (⟨[], "", [], none, none, false⟩, none) :=
  chat_send_empty_noop ⟨[], "", [], none, none, false⟩ "  " "sess"
    (Except.ok ⟨true, "r", none⟩) (by decide) (by decide)

/-! ### C9: the suggestion list never exceeds 3 entries -/

/-- C9: both operations that set the suggestion list produce at most 3
entries — `loadSuggestions` on every outcome, and a chat reply either
leaves the list unchanged or replaces it with at most 3 entries. -/
theorem suggestions_capped :
    (∀ result, (loadSuggestionsResult result).length ≤ 3) ∧
    ∀ (st : ChatState) (message sessionId : String) (net : Except Unit ChatResponse),
      (handleSendMessage st message sessionId net).1.suggestions = st.suggestions ∨
      (handleSendMessage st message sessionId net).1.suggestions.length ≤ 3 := by
  constructor
  · intro result
    cases result with
    | ok data =>
      cases data with
      | none => simp [loadSuggestionsResult, defaultSuggestions]
      | some l => simp [loadSuggestionsResult]
    | error e => simp [loadSuggestionsResult, defaultSuggestions]
  · intro st message sessionId net
    by_cases hguard : (jsTrimEmpty message && !jsTruthyStr st.selectedImage) = true
    · left
      simp [handleSendMessage, hguard]
    · rw [Bool.not_eq_true] at hguard
      cases net with
      | error e => left; simp [handleSendMessage, hguard]
      | ok resp =>
        by_cases hsucc : resp.success = true
        · cases hsugg : resp.suggestions with
          | none => left; simp [handleSendMessage, hguard, hsucc, hsugg]
          | some sugg =>
            right
            simp [handleSendMessage, hguard, hsucc, hsugg]
        · left
          rw [Bool.not_eq_true] at hsucc
          simp [handleSendMessage, hguard, hsucc]

end MuseumExplorer
